import Mathlib

/-!
# Verification of the roi_modeler budget-allocation optimizer

Shallow embedding of `src/roi_modeler/optimize.py` (together with the helpers
`as_bool` and `to_float` from `src/roi_modeler/io_utils.py` that it relies on).

Modelling conventions:

* Python floats are modelled as rationals (`ℚ`); every arithmetic identity the
  source computes is therefore exact here.  `1e-6` and `1e-9` tolerances become
  the exact rationals `1/10^6` and `1/10^9`.
* `spend ** beta` (Python float exponentiation) is modelled by an abstract
  function parameter `powf : ℚ → ℚ → ℚ` that is passed through unchanged; every
  theorem holds for an arbitrary `powf`, and concrete witnesses instantiate it.
* Cells that `to_float` maps to `None` (missing values, NaN, blanks) are
  modelled as `Option ℚ` with `none` for the missing case.  The `enabled`
  column is modelled by `BoolCell`: a real boolean, or the NaN a pandas left
  merge leaves for a channel with no matching constraint row.
* `datetime.now(timezone.utc).isoformat()` is an implicit input of the source;
  it is made explicit as the `now : String` parameter of `optimize_budget`.
* Tables are lists of records, one per row, in the order of the input table;
  `channel` is assumed to be a unique key (the spec's data model, §3), so the
  pandas left merge on `channel` is a first-match lookup.
* `pandas.sort_values(ascending=False)` is modelled by a deterministic
  insertion sort on `recommended_spend`; no claim depends on tie order.
* Python `round(x, d)` is modelled by round-half-up on rationals; no input used
  in any theorem below sits on a rounding tie, where Python's round-half-even
  on binary floats could differ.
-/

/-- The `1e-6` tolerance used by feasibility checks and residual handling. -/
def eps6 : ℚ := 1 / 1000000

/-- The `1e-9` tolerance used by the greedy loop. -/
def eps9 : ℚ := 1 / 1000000000

/-- Python `round(x, d)`: scale, round to an integer, unscale. -/
def roundTo (d : ℕ) (x : ℚ) : ℚ := ((round (x * 10 ^ d) : ℤ) : ℚ) / 10 ^ d

/-- Python `x or default` for a numeric-or-None value: `None` and `0` are
falsy and fall through to the default. -/
def pyOrQ (x : Option ℚ) (d : ℚ) : ℚ :=
  match x with
  | none => d
  | some v => if v = 0 then d else v

/-- A cell of the `enabled` column after the left merge: either an actual
boolean, or the NaN that pandas inserts for a baseline channel with no
matching constraint row. -/
inductive BoolCell where
  | val (b : Bool)
  | nan
deriving DecidableEq

/-- `io_utils.as_bool`: booleans pass through; anything else is stringified
and compared against the truthy set `{"1","true","t","yes","y"}`.  NaN
stringifies to `"nan"`, which is not in the set, hence `false`. -/
def as_bool : BoolCell → Bool
  | .val b => b
  | .nan => false

/-- One row of the channel-baseline table (the columns `optimize_budget`
reads; the remaining `BASELINE_COLUMNS` are never consulted by the optimizer). -/
structure BaselineRow where
  client_id : String
  channel : String
  baseline_spend : ℚ
  beta : ℚ
  alpha_pipeline : ℚ
  alpha_revenue : ℚ
  alpha_hqls : ℚ
  alpha_leads : ℚ
deriving DecidableEq

/-- One row of the constraint table.  Numeric cells are the result of
`to_float`: `none` models a missing/NaN/blank cell. -/
structure ConstraintRow where
  channel : String
  enabled : BoolCell
  min_spend : Option ℚ := none
  max_spend : Option ℚ := none
  locked_spend : Option ℚ := none
  min_share : Option ℚ := none
  max_share : Option ℚ := none
  min_roas : Option ℚ := none
  max_cac : Option ℚ := none
deriving DecidableEq

/-- A merged row of `_normalize_constraints`: baseline columns joined with the
resolved `enabled` flag and effective bounds. -/
structure MergedRow where
  client_id : String
  channel : String
  beta : ℚ
  alpha_pipeline : ℚ
  alpha_revenue : ℚ
  alpha_hqls : ℚ
  alpha_leads : ℚ
  enabled : Bool
  min_spend_effective : ℚ
  max_spend_effective : ℚ
deriving DecidableEq

/-- The six objective weights (`_build_weights` output). -/
structure Weights where
  pipeline : ℚ
  revenue : ℚ
  hqls : ℚ
  leads : ℚ
  roas : ℚ
  cac : ℚ
deriving DecidableEq

/-- The six predicted outcomes of `_predict`. -/
structure Outcome where
  pipeline : ℚ
  revenue : ℚ
  hqls : ℚ
  leads : ℚ
  roas : ℚ
  cac : ℚ
deriving DecidableEq

/-- The objective catalog: the `objectives:` mapping of `objectives.yaml`,
each entry a sparse name-to-weight mapping. -/
structure Catalog where
  objectives : List (String × List (String × ℚ))
deriving DecidableEq

/-- Aggregate guardrails of the run request. -/
structure Guardrails where
  min_roas : Option ℚ := none
  max_cac : Option ℚ := none
deriving DecidableEq

/-- The run request dictionary (`RUN_REQUEST_KEYS`).  `none` models an absent
key (or `None` value). -/
structure RunRequest where
  client_id : Option String := none
  total_budget : Option ℚ := none
  objective : Option String := none
  objective_overrides : Option (List (String × ℚ)) := none
  guardrails : Option Guardrails := none
deriving DecidableEq

/-- One row of the output allocation table. -/
structure AllocationRow where
  client_id : String
  channel : String
  recommended_spend : ℚ
  recommended_share : ℚ
  pred_pipeline : ℚ
  pred_revenue : ℚ
  pred_hqls : ℚ
  pred_leads : ℚ
  pred_roas : ℚ
  pred_cac : ℚ
  min_spend : ℚ
  max_spend : ℚ
deriving DecidableEq

/-- The summary record of an optimization run. -/
structure Summary where
  generated_at : String
  client_id : Option String
  objective : String
  weights : Weights
  total_budget : ℚ
  total_pipeline : ℚ
  total_revenue : ℚ
  total_hqls : ℚ
  overall_roas : ℚ
  overall_cac : ℚ
  guardrail_status : String
  unallocated_budget : ℚ
deriving DecidableEq

/-- `OptimizationResult` dataclass. -/
structure OptimizationResult where
  allocation : List AllocationRow
  summary : Summary
deriving DecidableEq

/-- The error taxonomy of `optimize_budget`: the two `ValueError`s it raises,
with the numeric payloads its messages carry. -/
inductive OptError where
  | unknownObjective (name : String)
  | infeasibleMin (minTotal budget : ℚ)
  | infeasibleMax (maxTotal budget : ℚ)
deriving DecidableEq

/-- The six weight keys recognized by `_build_weights`. -/
def weightKeys : List String := ["pipeline", "revenue", "hqls", "leads", "roas", "cac"]

/-- `weights[key] = value` guarded by `if key in weights`: recognized keys
update the corresponding field, anything else is a no-op. -/
def setWeight (w : Weights) (key : String) (v : ℚ) : Weights :=
  if key = "pipeline" then { w with pipeline := v }
  else if key = "revenue" then { w with revenue := v }
  else if key = "hqls" then { w with hqls := v }
  else if key = "leads" then { w with leads := v }
  else if key = "roas" then { w with roas := v }
  else if key = "cac" then { w with cac := v }
  else w

/-- `defaults.get(key, 0.0)` over a sparse weight mapping. -/
def weightDefault (defaults : List (String × ℚ)) (key : String) : ℚ :=
  (defaults.lookup key).getD 0

/-- `_build_weights`: look the objective up in the catalog (missing
`objectives:` section or missing name gives the empty mapping), fail on an
empty mapping (`if not defaults`), otherwise take the six defaults and fold
the caller overrides over them. -/
def _build_weights (objective : String) (catalog : Catalog)
    (overrides : List (String × ℚ)) : Except OptError Weights :=
  let defaults := (catalog.objectives.lookup objective).getD []
  if defaults = [] then
    .error (.unknownObjective objective)
  else
    let base : Weights :=
      { pipeline := weightDefault defaults "pipeline"
        revenue := weightDefault defaults "revenue"
        hqls := weightDefault defaults "hqls"
        leads := weightDefault defaults "leads"
        roas := weightDefault defaults "roas"
        cac := weightDefault defaults "cac" }
    .ok (overrides.foldl (fun w kv => setWeight w kv.1 kv.2) base)

/-- `_predict`: zero outcomes for non-positive spend, otherwise the power
curves, with the source's (redundant) spend guard on `roas` and the `hqls`
guard on `cac` kept as written. -/
def _predict (powf : ℚ → ℚ → ℚ) (row : MergedRow) (spend : ℚ) : Outcome :=
  if spend ≤ 0 then
    { pipeline := 0, revenue := 0, hqls := 0, leads := 0, roas := 0, cac := 0 }
  else
    let beta := row.beta
    let pipeline := row.alpha_pipeline * powf spend beta
    let revenue := row.alpha_revenue * powf spend beta
    let hqls := row.alpha_hqls * powf spend beta
    let leads := row.alpha_leads * powf spend beta
    let roas := if 0 < spend then revenue / spend else 0
    let cac := if 0 < hqls then spend / hqls else 0
    { pipeline := pipeline, revenue := revenue, hqls := hqls, leads := leads,
      roas := roas, cac := cac }

/-- `_score`: the weighted linear combination, `cac` subtracted. -/
def _score (m : Outcome) (w : Weights) : ℚ :=
  w.pipeline * m.pipeline + w.revenue * m.revenue + w.hqls * m.hqls
    + w.leads * m.leads + w.roas * m.roas - w.cac * m.cac

/-- The general (not disabled, not locked) branch of the per-channel bound
resolution: absolute bounds with Python-`or` defaults, tightened by the share
bounds, then the malformed-max clamp `max_spend = max(max_spend, min_spend)`. -/
def generalBounds (minS maxS minSh maxSh : Option ℚ) (B : ℚ) : ℚ × ℚ :=
  let min0 := pyOrQ minS 0
  let max0 := pyOrQ maxS B
  let min1 := match minSh with
    | some s => max min0 (s * B)
    | none => min0
  let max1 := match maxSh with
    | some s => min max0 (s * B)
    | none => max0
  (min1, max max1 min1)

/-- Per-channel bound resolution of `_normalize_constraints`: disabled
channels get `(0,0)`; a present, non-negative `locked_spend` pins both bounds;
otherwise the general branch. -/
def resolveBounds (enabled : Bool) (locked minS maxS minSh maxSh : Option ℚ)
    (B : ℚ) : ℚ × ℚ :=
  if enabled = false then (0, 0)
  else
    match locked with
    | some l => if 0 ≤ l then (l, l) else generalBounds minS maxS minSh maxSh B
    | none => generalBounds minS maxS minSh maxSh B

/-- One merged row: left-merge lookup of the constraint row by channel (NaN
`enabled` for a missing row), `as_bool` on `enabled`, then bound resolution. -/
def resolveChannel (cs : List ConstraintRow) (B : ℚ) (b : BaselineRow) : MergedRow :=
  let c? := cs.find? (fun c => c.channel == b.channel)
  let enabled := as_bool (match c? with
    | some c => c.enabled
    | none => BoolCell.nan)
  let bounds := resolveBounds enabled (c?.bind (·.locked_spend))
    (c?.bind (·.min_spend)) (c?.bind (·.max_spend))
    (c?.bind (·.min_share)) (c?.bind (·.max_share)) B
  { client_id := b.client_id
    channel := b.channel
    beta := b.beta
    alpha_pipeline := b.alpha_pipeline
    alpha_revenue := b.alpha_revenue
    alpha_hqls := b.alpha_hqls
    alpha_leads := b.alpha_leads
    enabled := enabled
    min_spend_effective := bounds.1
    max_spend_effective := bounds.2 }

/-- `_normalize_constraints`: one merged row per baseline row, in order. -/
def _normalize_constraints (baseline : List BaselineRow) (cs : List ConstraintRow)
    (B : ℚ) : List MergedRow :=
  baseline.map (resolveChannel cs B)

/-- The body of the inner `for idx, row in merged.iterrows()` scan for one
index: `none` when the channel is skipped (disabled, or within `1e-9` of its
cap), otherwise the `(gain, delta)` pair the source computes. -/
def candidateAt (powf : ℚ → ℚ → ℚ) (w : Weights) (rows : List MergedRow)
    (alloc : List ℚ) (remaining step : ℚ) (i : ℕ) : Option (ℚ × ℚ) :=
  match rows.get? i with
  | none => none
  | some row =>
    if row.enabled = false then none
    else
      let current := alloc.getD i 0
      if row.max_spend_effective - eps9 ≤ current then none
      else
        let delta := min step (min remaining (row.max_spend_effective - current))
        let gain := _score (_predict powf row (current + delta)) w
          - _score (_predict powf row current) w
        some (gain, delta)

/-- Accumulator update of the greedy scan: keep the strictly best gain
(`gain > best_gain`), so ties keep the first channel encountered.  The
source's `-inf` start is the `none` accumulator: the first candidate always
wins. -/
def betterOf (cand : ℕ → Option (ℚ × ℚ)) (best : Option (ℕ × ℚ × ℚ)) (i : ℕ) :
    Option (ℕ × ℚ × ℚ) :=
  match cand i with
  | none => best
  | some (g, d) =>
    match best with
    | none => some (i, g, d)
    | some (_, bg, _) => if bg < g then some (i, g, d) else best

/-- One round of the greedy scan: fold `betterOf` over the channel indices in
table order. -/
def bestStep (powf : ℚ → ℚ → ℚ) (w : Weights) (rows : List MergedRow)
    (alloc : List ℚ) (remaining step : ℚ) : Option (ℕ × ℚ × ℚ) :=
  (List.range rows.length).foldl
    (betterOf (candidateAt powf w rows alloc remaining step)) none

/-- The bounded greedy loop (`for _ in range(100000)`), fuel-indexed: stop
when the remaining budget is within `1e-9` or no channel can absorb a step,
otherwise apply the best channel's delta and recurse. -/
def greedyLoop (powf : ℚ → ℚ → ℚ) (w : Weights) (rows : List MergedRow)
    (step : ℚ) : ℕ → List ℚ → ℚ → List ℚ × ℚ
  | 0, alloc, remaining => (alloc, remaining)
  | fuel + 1, alloc, remaining =>
    if remaining ≤ eps9 then (alloc, remaining)
    else
      match bestStep powf w rows alloc remaining step with
      | none => (alloc, remaining)
      | some (i, _, d) =>
        greedyLoop powf w rows step fuel (alloc.set i (alloc.getD i 0 + d)) (remaining - d)

/-- The one-pass residual redistribution: if more than `1e-6` of budget is
left and there is positive headroom, spread the residual proportionally to
headroom and zero the residual; otherwise leave everything as is. -/
def redistribute (rows : List MergedRow) (alloc : List ℚ) (remaining : ℚ) :
    List ℚ × ℚ :=
  if eps6 < remaining then
    let available := List.zipWith (fun r a => max (r.max_spend_effective - a) 0) rows alloc
    let s := available.sum
    if 0 < s then
      (List.zipWith (fun a av => a + av / s * remaining) alloc available, 0)
    else (alloc, remaining)
  else (alloc, remaining)

/-- The greedy part of the allocation phase: start every channel at its
effective minimum and run the greedy loop with step `max(B/400, 50)` and fuel
`100000` on the remaining budget.  Returns the loop's allocation vector
(aligned with `merged`) and residual, before redistribution. -/
def greedyPhase (powf : ℚ → ℚ → ℚ) (w : Weights) (merged : List MergedRow)
    (B : ℚ) : List ℚ × ℚ :=
  let alloc0 := merged.map (·.min_spend_effective)
  let remaining0 := B - alloc0.sum
  let step := max (B / 400) 50
  greedyLoop powf w merged step 100000 alloc0 remaining0

/-- The full allocation phase of `optimize_budget`: the greedy loop followed
by the one-pass residual redistribution.  Returns the final internal
allocation vector (aligned with `merged`) and the final residual. -/
def allocPhase (powf : ℚ → ℚ → ℚ) (w : Weights) (merged : List MergedRow)
    (B : ℚ) : List ℚ × ℚ :=
  redistribute merged (greedyPhase powf w merged B).1 (greedyPhase powf w merged B).2

/-- Materialize one output row: prediction at the final spend, everything
rounded exactly as the source rounds it. -/
def buildRow (powf : ℚ → ℚ → ℚ) (B : ℚ) (row : MergedRow) (spend : ℚ) :
    AllocationRow :=
  let pred := _predict powf row spend
  { client_id := row.client_id
    channel := row.channel
    recommended_spend := roundTo 2 spend
    recommended_share := if 0 < B then roundTo 4 (spend / B) else 0
    pred_pipeline := roundTo 2 pred.pipeline
    pred_revenue := roundTo 2 pred.revenue
    pred_hqls := roundTo 2 pred.hqls
    pred_leads := roundTo 2 pred.leads
    pred_roas := roundTo 4 pred.roas
    pred_cac := roundTo 4 pred.cac
    min_spend := roundTo 2 row.min_spend_effective
    max_spend := roundTo 2 row.max_spend_effective }

/-- Insert a row into a list sorted by descending `recommended_spend`,
after all rows with an equal or larger spend. -/
def insertDesc (x : AllocationRow) : List AllocationRow → List AllocationRow
  | [] => [x]
  | y :: t => if y.recommended_spend < x.recommended_spend then x :: y :: t
    else y :: insertDesc x t

/-- `sort_values(by="recommended_spend", ascending=False)`. -/
def sortDesc (l : List AllocationRow) : List AllocationRow :=
  l.foldr insertDesc []

/-- `float(run_request.get("total_budget") or baseline_df["baseline_spend"].sum())`. -/
def resolve_total_budget (rr : RunRequest) (baseline : List BaselineRow) : ℚ :=
  pyOrQ rr.total_budget ((baseline.map (·.baseline_spend)).sum)

/-- `str(run_request.get("objective", "pipeline")).strip().lower()`. -/
def objective_of (rr : RunRequest) : String :=
  ((rr.objective.getD "pipeline").trim).toLower

/-- `optimize_budget`.  The wall-clock reading the source takes for the
summary's `generated_at` field is the explicit `now` parameter. -/
def optimize_budget (powf : ℚ → ℚ → ℚ) (baseline : List BaselineRow)
    (cs : List ConstraintRow) (rr : RunRequest) (catalog : Catalog)
    (now : String) : Except OptError OptimizationResult :=
  let B := resolve_total_budget rr baseline
  let objective := objective_of rr
  let overrides := rr.objective_overrides.getD []
  match _build_weights objective catalog overrides with
  | .error e => .error e
  | .ok weights =>
    let merged := _normalize_constraints baseline cs B
    let min_total := (merged.map (·.min_spend_effective)).sum
    let max_total := (merged.map (·.max_spend_effective)).sum
    if eps6 < min_total - B then .error (.infeasibleMin min_total B)
    else if max_total + eps6 < B then .error (.infeasibleMax max_total B)
    else
      let ar := allocPhase powf weights merged B
      let table := sortDesc (List.zipWith (buildRow powf B) merged ar.1)
      let total_pipeline := (table.map (·.pred_pipeline)).sum
      let total_revenue := (table.map (·.pred_revenue)).sum
      let total_hqls := (table.map (·.pred_hqls)).sum
      let overall_roas := if 0 < B then total_revenue / B else 0
      let overall_cac := if 0 < total_hqls then B / total_hqls else 0
      let gr := rr.guardrails.getD {}
      let failRoas := match gr.min_roas with
        | some m => decide (overall_roas < m)
        | none => false
      let failCac := match gr.max_cac with
        | some m => decide (m < overall_cac)
        | none => false
      .ok
        { allocation := table
          summary :=
            { generated_at := now
              client_id := rr.client_id
              objective := objective
              weights := weights
              total_budget := roundTo 2 B
              total_pipeline := roundTo 2 total_pipeline
              total_revenue := roundTo 2 total_revenue
              total_hqls := roundTo 2 total_hqls
              overall_roas := roundTo 4 overall_roas
              overall_cac := roundTo 4 overall_cac
              guardrail_status := if failRoas || failCac then "fail" else "pass"
              unallocated_budget := roundTo 6 ar.2 } }

/-! ### Concrete fixtures used by witnesses and counterexamples -/

/-- A concrete instantiation of the abstract power function. -/
def pow0 : ℚ → ℚ → ℚ := fun s _ => s

/-- A catalog with a single `pipeline` objective of weight 1. -/
def cat1 : Catalog := ⟨[("pipeline", [("pipeline", 1)])]⟩

/-- A catalog whose `growth` objective is present but has an empty weight
mapping. -/
def catEmptyEntry : Catalog := ⟨[("growth", [])]⟩

/-- A baseline row with flat response curves (all alphas zero). -/
def bRow (ch : String) : BaselineRow :=
  { client_id := "acme", channel := ch, baseline_spend := 100, beta := 1,
    alpha_pipeline := 0, alpha_revenue := 0, alpha_hqls := 0, alpha_leads := 0 }

/-- An enabled constraint row with no explicit bounds. -/
def openRow (ch : String) : ConstraintRow := { channel := ch, enabled := .val true }

/-- An enabled constraint row locked at `l`. -/
def lockRow (ch : String) (l : ℚ) : ConstraintRow :=
  { channel := ch, enabled := .val true, locked_spend := some l }

def base1 : List BaselineRow := [bRow "a"]

def base2 : List BaselineRow := [bRow "a", bRow "b"]

def base3 : List BaselineRow := [bRow "a", bRow "b", bRow "c"]

/-- A run request with a budget of 10000. -/
def rr10000 : RunRequest := { total_budget := some 10000 }

/-- A run request with a budget of 100. -/
def rr100 : RunRequest := { total_budget := some 100 }

/-- A run request with no budget key. -/
def rrNoBudget : RunRequest := {}

def csOpen1 : List ConstraintRow := [openRow "a"]

def csOpen2 : List ConstraintRow := [openRow "a", openRow "b"]

/-- Two channels locked at `0.004` and one open channel. -/
def csTwoLocked : List ConstraintRow :=
  [lockRow "a" (1 / 250), lockRow "b" (1 / 250), openRow "c"]

/-- One channel locked at `0.004` and one open channel. -/
def csOneLocked : List ConstraintRow := [lockRow "a" (1 / 250), openRow "b"]

/-- A disabled channel that nevertheless carries a locked spend, plus an open
channel. -/
def csDisabledLocked : List ConstraintRow :=
  [{ channel := "a", enabled := .val false, locked_spend := some 500 }, openRow "b"]

/-- An enabled channel locked at 30, plus an open channel. -/
def csLocked30 : List ConstraintRow := [lockRow "a" 30, openRow "b"]

/-- A constraint row with a negative absolute minimum spend. -/
def csNegativeMin : List ConstraintRow :=
  [{ channel := "a", enabled := .val true, min_spend := some (-5) }]

/-- Two channels with `min_spend = 6000` each (the spec's infeasibility
example). -/
def csMin6000 : List ConstraintRow :=
  [{ channel := "a", enabled := .val true, min_spend := some 6000 },
   { channel := "b", enabled := .val true, min_spend := some 6000 }]

/-- The aggregate of the effective minimum bounds after resolution. -/
def minTotalOf (baseline : List BaselineRow) (cs : List ConstraintRow) (B : ℚ) : ℚ :=
  ((_normalize_constraints baseline cs B).map (·.min_spend_effective)).sum

/-- The aggregate of the effective maximum bounds after resolution. -/
def maxTotalOf (baseline : List BaselineRow) (cs : List ConstraintRow) (B : ℚ) : ℚ :=
  ((_normalize_constraints baseline cs B).map (·.max_spend_effective)).sum

/-- A summary with its `generated_at` timestamp blanked, for comparing two
runs up to the wall-clock reading. -/
def eraseTime (s : Summary) : Summary := { s with generated_at := "" }

/-- The unit weight vector on `pipeline` that `cat1` resolves to. -/
def wPipeline : Weights :=
  { pipeline := 1, revenue := 0, hqls := 0, leads := 0, roas := 0, cac := 0 }

/-- A throwaway `MergedRow` used only as the default value of out-of-range
`List.getD` lookups in proofs; no theorem depends on its contents. -/
def mrowDefault : MergedRow :=
  { client_id := "", channel := "", beta := 0, alpha_pipeline := 0,
    alpha_revenue := 0, alpha_hqls := 0, alpha_leads := 0, enabled := false,
    min_spend_effective := 0, max_spend_effective := 0 }

/-! ### List helper lemmas -/

theorem getD_set_self (l : List ℚ) (i : ℕ) (v : ℚ) (h : i < l.length) :
    (l.set i v).getD i 0 = v := by
  rw [List.getD_eq_get?, List.get?_set_eq_of_lt v h]
  rfl

theorem getD_set_ne (l : List ℚ) (i j : ℕ) (v : ℚ) (h : i ≠ j) :
    (l.set i v).getD j 0 = l.getD j 0 := by
  rw [List.getD_eq_get?, List.getD_eq_get?, List.get?_set_ne v l h]

theorem get?_of_lt_length (l : List ℚ) (i : ℕ) (h : i < l.length) :
    l.get? i = some (l.getD i 0) := by
  cases hl : l.get? i with
  | none => exact absurd (List.get?_eq_none.mp hl) (not_le.mpr h)
  | some a => rw [List.getD_eq_get?, hl]; rfl

theorem sum_set_add (l : List ℚ) : ∀ (i : ℕ) (d : ℚ), i < l.length →
    (l.set i (l.getD i 0 + d)).sum = l.sum + d := by
  induction l with
  | nil => intro i d h; simp at h
  | cons x t ih =>
    intro i d h
    cases i with
    | zero =>
      simp only [List.getD_cons_zero, List.set_cons_zero, List.sum_cons]
      ring
    | succ i =>
      simp only [List.getD_cons_succ, List.set_cons_succ, List.sum_cons]
      rw [ih i d (by simpa using h)]
      ring

theorem getD_zipWith {α β : Type} (f : α → β → ℚ) (l1 : List α) (l2 : List β)
    (i : ℕ) (d1 : α) (d2 : β) (h1 : i < l1.length) (h2 : i < l2.length) :
    (List.zipWith f l1 l2).getD i 0 = f (l1.getD i d1) (l2.getD i d2) := by
  cases e1 : l1.get? i with
  | none => exact absurd (List.get?_eq_none.mp e1) (not_le.mpr h1)
  | some a =>
    cases e2 : l2.get? i with
    | none => exact absurd (List.get?_eq_none.mp e2) (not_le.mpr h2)
    | some b =>
      have hz : (List.zipWith f l1 l2).get? i = some (f a b) := by
        rw [List.get?_zipWith', e1, e2]
        rfl
      rw [List.getD_eq_get?, hz, List.getD_eq_get?, e1, List.getD_eq_get?, e2]
      rfl

theorem sum_zipWith_add_div : ∀ (l1 l2 : List ℚ) (s r : ℚ),
    l1.length = l2.length →
    (List.zipWith (fun a av => a + av / s * r) l1 l2).sum = l1.sum + l2.sum / s * r := by
  intro l1
  induction l1 with
  | nil =>
    intro l2 s r h
    cases l2 with
    | nil => simp
    | cons y t => simp at h
  | cons x t ih =>
    intro l2 s r h
    cases l2 with
    | nil => simp at h
    | cons y t2 =>
      simp only [List.zipWith_cons_cons, List.sum_cons]
      rw [ih t2 s r (by simpa using h)]
      ring

theorem mem_insertDesc (x a : AllocationRow) : ∀ (l : List AllocationRow),
    a ∈ insertDesc x l ↔ a = x ∨ a ∈ l := by
  intro l
  induction l with
  | nil => simp [insertDesc]
  | cons y t ih =>
    simp only [insertDesc]
    split
    · simp [List.mem_cons]
    · simp only [List.mem_cons, ih]
      tauto

theorem mem_sortDesc (a : AllocationRow) : ∀ (l : List AllocationRow),
    a ∈ sortDesc l ↔ a ∈ l := by
  intro l
  induction l with
  | nil => simp [sortDesc]
  | cons x t ih =>
    show a ∈ insertDesc x (sortDesc t) ↔ _
    rw [mem_insertDesc, ih]
    simp [List.mem_cons]

/-! ### Constraint-resolution lemmas -/

theorem generalBounds_fst_le_snd (mnS mxS mnSh mxSh : Option ℚ) (B : ℚ) :
    (generalBounds mnS mxS mnSh mxSh B).1 ≤ (generalBounds mnS mxS mnSh mxSh B).2 :=
  le_max_right _ _

theorem generalBounds_fst_nonneg (mnS mxS mnSh mxSh : Option ℚ) (B : ℚ)
    (h : ∀ v, mnS = some v → 0 ≤ v) :
    0 ≤ (generalBounds mnS mxS mnSh mxSh B).1 := by
  have hmin0 : 0 ≤ pyOrQ mnS 0 := by
    cases mnS with
    | none => exact le_refl 0
    | some v =>
      show 0 ≤ if v = 0 then (0 : ℚ) else v
      by_cases hv : v = 0
      · rw [if_pos hv]
      · rw [if_neg hv]; exact h v rfl
  cases mnSh with
  | some s => exact le_trans hmin0 (le_max_left _ _)
  | none => exact hmin0

theorem resolveBounds_fst_le_snd (e : Bool) (lk mnS mxS mnSh mxSh : Option ℚ)
    (B : ℚ) :
    (resolveBounds e lk mnS mxS mnSh mxSh B).1 ≤ (resolveBounds e lk mnS mxS mnSh mxSh B).2 := by
  unfold resolveBounds
  by_cases he : e = false
  · rw [if_pos he]
  · rw [if_neg he]
    cases lk with
    | some l =>
      show (if 0 ≤ l then (l, l) else generalBounds mnS mxS mnSh mxSh B).1
        ≤ (if 0 ≤ l then (l, l) else generalBounds mnS mxS mnSh mxSh B).2
      by_cases h0 : 0 ≤ l
      · rw [if_pos h0]
      · rw [if_neg h0]; exact generalBounds_fst_le_snd mnS mxS mnSh mxSh B
    | none => exact generalBounds_fst_le_snd mnS mxS mnSh mxSh B

theorem resolveBounds_nonneg (e : Bool) (lk mnS mxS mnSh mxSh : Option ℚ)
    (B : ℚ) (h : ∀ v, mnS = some v → 0 ≤ v) :
    0 ≤ (resolveBounds e lk mnS mxS mnSh mxSh B).1 := by
  unfold resolveBounds
  by_cases he : e = false
  · rw [if_pos he]
  · rw [if_neg he]
    cases lk with
    | some l =>
      show 0 ≤ (if 0 ≤ l then (l, l) else generalBounds mnS mxS mnSh mxSh B).1
      by_cases h0 : 0 ≤ l
      · rw [if_pos h0]; exact h0
      · rw [if_neg h0]; exact generalBounds_fst_nonneg mnS mxS mnSh mxSh B h
    | none => exact generalBounds_fst_nonneg mnS mxS mnSh mxSh B h

theorem resolveChannel_min_le_max (cs : List ConstraintRow) (B : ℚ) (b : BaselineRow) :
    (resolveChannel cs B b).min_spend_effective ≤ (resolveChannel cs B b).max_spend_effective :=
  resolveBounds_fst_le_snd _ _ _ _ _ _ B

theorem normalize_get? (baseline : List BaselineRow) (cs : List ConstraintRow)
    (B : ℚ) (i : ℕ) (row : MergedRow)
    (h : (_normalize_constraints baseline cs B).get? i = some row) :
    ∃ b, baseline.get? i = some b ∧ row = resolveChannel cs B b := by
  unfold _normalize_constraints at h
  rw [List.get?_map] at h
  cases hb : baseline.get? i with
  | none => rw [hb] at h; cases h
  | some b =>
    rw [hb] at h
    exact ⟨b, rfl, (Option.some.injEq _ _ ▸ h : _ = row).symm⟩

/-! ### Greedy-loop lemmas -/

theorem betterOf_foldl_sound (cand : ℕ → Option (ℚ × ℚ)) :
    ∀ (l : List ℕ) (acc : Option (ℕ × ℚ × ℚ)),
      (∀ i g d, acc = some (i, g, d) → cand i = some (g, d)) →
      ∀ i g d, l.foldl (betterOf cand) acc = some (i, g, d) → cand i = some (g, d) := by
  intro l
  induction l with
  | nil => intro acc hacc i g d h; exact hacc i g d h
  | cons x t ih =>
    intro acc hacc i g d h
    refine ih (betterOf cand acc x) ?_ i g d h
    intro j gg dd hj
    unfold betterOf at hj
    cases hc : cand x with
    | none => rw [hc] at hj; exact hacc j gg dd hj
    | some gd =>
      rw [hc] at hj
      cases acc with
      | none =>
        obtain ⟨he1, he2⟩ := Prod.mk.injEq .. ▸ Option.some.injEq .. ▸ hj
        rw [← he1, hc, ← he2]
      | some b =>
        obtain ⟨bi, bg, bd⟩ := b
        obtain ⟨g0, d0⟩ := gd
        dsimp only at hj
        by_cases hlt : bg < g0
        · rw [if_pos hlt] at hj
          obtain ⟨he1, he2⟩ := Prod.mk.injEq .. ▸ Option.some.injEq .. ▸ hj
          rw [← he1, hc, ← he2]
        · rw [if_neg hlt] at hj
          exact hacc j gg dd hj

theorem bestStep_sound (powf : ℚ → ℚ → ℚ) (w : Weights) (rows : List MergedRow)
    (alloc : List ℚ) (remaining step : ℚ) (i : ℕ) (g d : ℚ)
    (h : bestStep powf w rows alloc remaining step = some (i, g, d)) :
    candidateAt powf w rows alloc remaining step i = some (g, d) := by
  unfold bestStep at h
  exact betterOf_foldl_sound _ _ none (by intro _ _ _ hx; cases hx) i g d h

theorem candidateAt_spec (powf : ℚ → ℚ → ℚ) (w : Weights) (rows : List MergedRow)
    (alloc : List ℚ) (remaining step : ℚ) (i : ℕ) (g d : ℚ)
    (h : candidateAt powf w rows alloc remaining step i = some (g, d)) :
    ∃ row, rows.get? i = some row ∧ row.enabled = true ∧
      alloc.getD i 0 < row.max_spend_effective - eps9 ∧
      d = min step (min remaining (row.max_spend_effective - alloc.getD i 0)) := by
  unfold candidateAt at h
  cases hr : rows.get? i with
  | none => rw [hr] at h; cases h
  | some row =>
    rw [hr] at h
    dsimp only at h
    by_cases he : row.enabled = false
    · rw [if_pos he] at h; cases h
    · rw [if_neg he] at h
      by_cases hc : row.max_spend_effective - eps9 ≤ alloc.getD i 0
      · rw [if_pos hc] at h; cases h
      · rw [if_neg hc] at h
        obtain ⟨-, h2⟩ := Prod.mk.injEq .. ▸ Option.some.injEq .. ▸ h
        exact ⟨row, rfl, Bool.not_eq_false _ ▸ he, not_le.mp hc, h2.symm⟩

theorem eps9_pos : (0 : ℚ) < eps9 := by norm_num [eps9]

theorem eps6_pos : (0 : ℚ) < eps6 := by norm_num [eps6]

theorem greedyLoop_succ (powf : ℚ → ℚ → ℚ) (w : Weights) (rows : List MergedRow)
    (step : ℚ) (f : ℕ) (alloc : List ℚ) (r : ℚ) :
    greedyLoop powf w rows step (f + 1) alloc r =
      if r ≤ eps9 then (alloc, r)
      else
        match bestStep powf w rows alloc r step with
        | none => (alloc, r)
        | some (i, _, d) =>
          greedyLoop powf w rows step f (alloc.set i (alloc.getD i 0 + d)) (r - d) := by
  rfl

theorem index_lt_of_get?_eq_some (rows : List MergedRow) (i : ℕ) (row : MergedRow)
    (h : rows.get? i = some row) : i < rows.length := by
  by_contra hge
  rw [List.get?_eq_none.mpr (le_of_not_lt hge)] at h
  cases h

theorem greedyLoop_len_sum (powf : ℚ → ℚ → ℚ) (w : Weights) (rows : List MergedRow)
    (step : ℚ) : ∀ (fuel : ℕ) (alloc : List ℚ) (r : ℚ),
    alloc.length = rows.length →
    (greedyLoop powf w rows step fuel alloc r).1.length = rows.length ∧
    (greedyLoop powf w rows step fuel alloc r).1.sum
      + (greedyLoop powf w rows step fuel alloc r).2 = alloc.sum + r := by
  intro fuel
  induction fuel with
  | zero => intro alloc r hlen; exact ⟨hlen, rfl⟩
  | succ f ih =>
    intro alloc r hlen
    rw [greedyLoop_succ]
    by_cases hr : r ≤ eps9
    · rw [if_pos hr]; exact ⟨hlen, rfl⟩
    · rw [if_neg hr]
      cases hbs : bestStep powf w rows alloc r step with
      | none => exact ⟨hlen, rfl⟩
      | some igd =>
        obtain ⟨i, g, d⟩ := igd
        dsimp only
        obtain ⟨row, hrow, -, -, -⟩ :=
          candidateAt_spec powf w rows alloc r step i g d
            (bestStep_sound powf w rows alloc r step i g d hbs)
        have hi' : i < alloc.length :=
          hlen ▸ index_lt_of_get?_eq_some rows i row hrow
        have hlen' : (alloc.set i (alloc.getD i 0 + d)).length = rows.length := by
          rw [List.length_set]; exact hlen
        obtain ⟨ihlen, ihsum⟩ := ih (alloc.set i (alloc.getD i 0 + d)) (r - d) hlen'
        refine ⟨ihlen, ?_⟩
        rw [ihsum, sum_set_add alloc i d hi']
        ring

theorem greedyLoop_bounds (powf : ℚ → ℚ → ℚ) (w : Weights) (rows : List MergedRow)
    (step : ℚ) (hstep : 0 < step) : ∀ (fuel : ℕ) (alloc : List ℚ) (r : ℚ),
    alloc.length = rows.length →
    (∀ i row, rows.get? i = some row →
      row.min_spend_effective ≤ alloc.getD i 0 ∧
      alloc.getD i 0 ≤ row.max_spend_effective) →
    ∀ i row, rows.get? i = some row →
      row.min_spend_effective ≤ (greedyLoop powf w rows step fuel alloc r).1.getD i 0 ∧
      (greedyLoop powf w rows step fuel alloc r).1.getD i 0 ≤ row.max_spend_effective := by
  intro fuel
  induction fuel with
  | zero => intro alloc r _ hbnd; exact hbnd
  | succ f ih =>
    intro alloc r hlen hbnd
    rw [greedyLoop_succ]
    by_cases hr : r ≤ eps9
    · rw [if_pos hr]; exact hbnd
    · rw [if_neg hr]
      cases hbs : bestStep powf w rows alloc r step with
      | none => exact hbnd
      | some igd =>
        obtain ⟨j, g, d⟩ := igd
        dsimp only
        obtain ⟨rowj, hrowj, -, hlt, hd⟩ :=
          candidateAt_spec powf w rows alloc r step j g d
            (bestStep_sound powf w rows alloc r step j g d hbs)
        have hj : j < alloc.length := hlen ▸ index_lt_of_get?_eq_some rows j rowj hrowj
        have hrpos : 0 < r := lt_trans eps9_pos (not_le.mp hr)
        have hheadpos : 0 < rowj.max_spend_effective - alloc.getD j 0 := by
          have : alloc.getD j 0 < rowj.max_spend_effective :=
            lt_trans hlt (by have := eps9_pos; linarith)
          linarith
        have hdpos : 0 < d := by
          rw [hd]; exact lt_min hstep (lt_min hrpos hheadpos)
        have hdle : d ≤ rowj.max_spend_effective - alloc.getD j 0 := by
          rw [hd]; exact le_trans (min_le_right _ _) (min_le_right _ _)
        refine ih (alloc.set j (alloc.getD j 0 + d)) (r - d)
          (by rw [List.length_set]; exact hlen) ?_
        intro k rowk hk
        by_cases hkj : j = k
        · subst hkj
          have hrowk : rowk = rowj := by
            rw [hrowj] at hk
            exact (Option.some.injEq .. ▸ hk).symm
          rw [getD_set_self alloc j _ hj]
          obtain ⟨hlo, -⟩ := hbnd j rowk hk
          constructor
          · linarith
          · rw [hrowk]
            linarith
        · rw [getD_set_ne alloc j k _ hkj]
          exact hbnd k rowk hk

/-! ### Redistribution lemmas -/

theorem redistribute_length (rows : List MergedRow) (alloc : List ℚ) (r : ℚ)
    (hlen : alloc.length = rows.length) :
    (redistribute rows alloc r).1.length = alloc.length := by
  unfold redistribute
  by_cases h1 : eps6 < r
  · rw [if_pos h1]
    dsimp only
    by_cases h2 : 0 <
      (List.zipWith (fun row a => max (row.max_spend_effective - a) 0) rows alloc).sum
    · rw [if_pos h2]
      simp only [List.length_zipWith, hlen, min_self]
    · rw [if_neg h2]
  · rw [if_neg h1]

theorem redistribute_sum (rows : List MergedRow) (alloc : List ℚ) (r : ℚ)
    (hlen : alloc.length = rows.length) :
    (redistribute rows alloc r).1.sum + (redistribute rows alloc r).2
      = alloc.sum + r := by
  unfold redistribute
  by_cases h1 : eps6 < r
  · rw [if_pos h1]
    dsimp only
    by_cases h2 : 0 <
      (List.zipWith (fun row a => max (row.max_spend_effective - a) 0) rows alloc).sum
    · rw [if_pos h2]
      dsimp only
      have hlen2 : alloc.length =
          (List.zipWith (fun row a => max (row.max_spend_effective - a) 0) rows alloc).length := by
        simp only [List.length_zipWith, hlen, min_self]
      rw [sum_zipWith_add_div alloc _ _ r hlen2, div_self (ne_of_gt h2), one_mul,
        add_zero]
    · rw [if_neg h2]
  · rw [if_neg h1]

theorem redistribute_lower (rows : List MergedRow) (alloc : List ℚ) (r : ℚ) (i : ℕ)
    (hlen : alloc.length = rows.length) :
    alloc.getD i 0 ≤ (redistribute rows alloc r).1.getD i 0 := by
  unfold redistribute
  by_cases h1 : eps6 < r
  · rw [if_pos h1]
    dsimp only
    by_cases h2 : 0 <
      (List.zipWith (fun row a => max (row.max_spend_effective - a) 0) rows alloc).sum
    · rw [if_pos h2]
      dsimp only
      by_cases hi : i < alloc.length
      · have hi2 : i <
            (List.zipWith (fun row a => max (row.max_spend_effective - a) 0) rows alloc).length := by
          simp only [List.length_zipWith, hlen, min_self]
          exact hlen ▸ hi
        rw [getD_zipWith _ alloc _ i 0 0 hi hi2]
        have hav : (0 : ℚ) ≤
            (List.zipWith (fun row a => max (row.max_spend_effective - a) 0) rows alloc).getD i 0 := by
          have hi' : i < rows.length := hlen ▸ hi
          rw [getD_zipWith _ rows alloc i mrowDefault 0 hi' hi]
          exact le_max_right _ _
        have : (0 : ℚ) ≤
            (List.zipWith (fun row a => max (row.max_spend_effective - a) 0) rows alloc).getD i 0
              / (List.zipWith (fun row a => max (row.max_spend_effective - a) 0) rows alloc).sum
              * r :=
          mul_nonneg (div_nonneg hav (le_of_lt h2)) (le_of_lt (lt_trans eps6_pos h1))
        linarith
      · have hge : alloc.length ≤ i := le_of_not_lt hi
        have hge2 :
            (List.zipWith
              (fun a av => a + av /
                (List.zipWith (fun row a => max (row.max_spend_effective - a) 0) rows alloc).sum * r)
              alloc
              (List.zipWith (fun row a => max (row.max_spend_effective - a) 0) rows alloc)).length ≤ i := by
          simp only [List.length_zipWith, hlen, min_self]
          exact hlen ▸ hge
        rw [List.getD_eq_get?, List.get?_eq_none.mpr hge,
          List.getD_eq_get?, List.get?_eq_none.mpr hge2]
    · rw [if_neg h2]
  · rw [if_neg h1]

theorem redistribute_at_max (rows : List MergedRow) (alloc : List ℚ) (r : ℚ)
    (i : ℕ) (row : MergedRow) (hlen : alloc.length = rows.length)
    (hrow : rows.get? i = some row)
    (ha : alloc.getD i 0 = row.max_spend_effective) :
    (redistribute rows alloc r).1.getD i 0 = alloc.getD i 0 := by
  have hi' : i < rows.length := index_lt_of_get?_eq_some rows i row hrow
  have hi : i < alloc.length := hlen ▸ hi'
  unfold redistribute
  by_cases h1 : eps6 < r
  · rw [if_pos h1]
    dsimp only
    by_cases h2 : 0 <
      (List.zipWith (fun row a => max (row.max_spend_effective - a) 0) rows alloc).sum
    · rw [if_pos h2]
      dsimp only
      have hi2 : i <
          (List.zipWith (fun row a => max (row.max_spend_effective - a) 0) rows alloc).length := by
        simp only [List.length_zipWith, hlen, min_self]
        exact hlen ▸ hi
      rw [getD_zipWith _ alloc _ i 0 0 hi hi2,
        getD_zipWith _ rows alloc i mrowDefault 0 hi' hi]
      have hrowD : rows.getD i mrowDefault = row := by
        rw [List.getD_eq_get?, hrow]
        rfl
      rw [hrowD, ha, sub_self, max_self, zero_div, zero_mul, add_zero]
    · rw [if_neg h2]
  · rw [if_neg h1]

/-! ### Allocation-phase lemmas -/

theorem step_pos (B : ℚ) : 0 < max (B / 400) 50 :=
  lt_of_lt_of_le (by norm_num) (le_max_right (B / 400) 50)

theorem alloc0_getD (merged : List MergedRow) (i : ℕ) (row : MergedRow)
    (h : merged.get? i = some row) :
    (merged.map (·.min_spend_effective)).getD i 0 = row.min_spend_effective := by
  rw [List.getD_eq_get?, List.get?_map, h]
  rfl

theorem greedyPhase_len (powf : ℚ → ℚ → ℚ) (w : Weights) (merged : List MergedRow)
    (B : ℚ) : (greedyPhase powf w merged B).1.length = merged.length :=
  (greedyLoop_len_sum powf w merged (max (B / 400) 50) 100000
    (merged.map (·.min_spend_effective))
    (B - (merged.map (·.min_spend_effective)).sum) (List.length_map _ _)).1

theorem greedyPhase_sum (powf : ℚ → ℚ → ℚ) (w : Weights) (merged : List MergedRow)
    (B : ℚ) : (greedyPhase powf w merged B).1.sum + (greedyPhase powf w merged B).2 = B := by
  have h := (greedyLoop_len_sum powf w merged (max (B / 400) 50) 100000
    (merged.map (·.min_spend_effective))
    (B - (merged.map (·.min_spend_effective)).sum) (List.length_map _ _)).2
  show (greedyLoop powf w merged _ 100000 _ _).1.sum
    + (greedyLoop powf w merged _ 100000 _ _).2 = B
  rw [h]
  ring

theorem normalize_row_min_le_max (baseline : List BaselineRow)
    (cs : List ConstraintRow) (B : ℚ) (i : ℕ) (row : MergedRow)
    (h : (_normalize_constraints baseline cs B).get? i = some row) :
    row.min_spend_effective ≤ row.max_spend_effective := by
  obtain ⟨b, -, hb2⟩ := normalize_get? baseline cs B i row h
  rw [hb2]
  exact resolveChannel_min_le_max cs B b

theorem greedyPhase_bounds (powf : ℚ → ℚ → ℚ) (w : Weights)
    (baseline : List BaselineRow) (cs : List ConstraintRow) (B : ℚ)
    (i : ℕ) (row : MergedRow)
    (h : (_normalize_constraints baseline cs B).get? i = some row) :
    row.min_spend_effective
      ≤ (greedyPhase powf w (_normalize_constraints baseline cs B) B).1.getD i 0 ∧
    (greedyPhase powf w (_normalize_constraints baseline cs B) B).1.getD i 0
      ≤ row.max_spend_effective := by
  refine greedyLoop_bounds powf w (_normalize_constraints baseline cs B)
    (max (B / 400) 50) (step_pos B) 100000
    ((_normalize_constraints baseline cs B).map (·.min_spend_effective))
    (B - ((_normalize_constraints baseline cs B).map (·.min_spend_effective)).sum)
    (List.length_map _ _) ?_ i row h
  intro j rowj hj
  rw [alloc0_getD _ j rowj hj]
  exact ⟨le_refl _, normalize_row_min_le_max baseline cs B j rowj hj⟩

theorem allocPhase_lower (powf : ℚ → ℚ → ℚ) (w : Weights)
    (baseline : List BaselineRow) (cs : List ConstraintRow) (B : ℚ)
    (i : ℕ) (row : MergedRow)
    (h : (_normalize_constraints baseline cs B).get? i = some row) :
    row.min_spend_effective
      ≤ (allocPhase powf w (_normalize_constraints baseline cs B) B).1.getD i 0 := by
  refine le_trans (greedyPhase_bounds powf w baseline cs B i row h).1 ?_
  exact redistribute_lower _ _ _ i (greedyPhase_len powf w _ B)

theorem allocPhase_len (powf : ℚ → ℚ → ℚ) (w : Weights) (merged : List MergedRow)
    (B : ℚ) : (allocPhase powf w merged B).1.length = merged.length := by
  unfold allocPhase
  rw [redistribute_length _ _ _ (greedyPhase_len powf w merged B)]
  exact greedyPhase_len powf w merged B

theorem allocPhase_pinned (powf : ℚ → ℚ → ℚ) (w : Weights)
    (baseline : List BaselineRow) (cs : List ConstraintRow) (B : ℚ)
    (i : ℕ) (row : MergedRow)
    (h : (_normalize_constraints baseline cs B).get? i = some row)
    (hpin : row.min_spend_effective = row.max_spend_effective) :
    (allocPhase powf w (_normalize_constraints baseline cs B) B).1.getD i 0
      = row.min_spend_effective := by
  obtain ⟨hlo, hhi⟩ := greedyPhase_bounds powf w baseline cs B i row h
  have heq : (greedyPhase powf w (_normalize_constraints baseline cs B) B).1.getD i 0
      = row.min_spend_effective := le_antisymm (hpin ▸ hhi) hlo
  unfold allocPhase
  rw [redistribute_at_max _ _ _ i row (greedyPhase_len powf w _ B) h
    (by rw [heq, hpin]), heq]

/-! ### Claim theorems -/

/-- C6: for every channel row and spend, `_predict` returns all-zero outcomes
when `spend ≤ 0`; otherwise `alpha_metric * spend^beta` for pipeline, revenue,
hqls and leads, `roas = revenue / spend`, and `cac = spend / hqls` when
`hqls > 0` and `0.0` when `hqls ≤ 0`. -/
theorem response_model_formula (powf : ℚ → ℚ → ℚ) (row : MergedRow) (s : ℚ) :
    _predict powf row s =
      if s ≤ 0 then
        { pipeline := 0, revenue := 0, hqls := 0, leads := 0, roas := 0, cac := 0 }
      else
        { pipeline := row.alpha_pipeline * powf s row.beta
          revenue := row.alpha_revenue * powf s row.beta
          hqls := row.alpha_hqls * powf s row.beta
          leads := row.alpha_leads * powf s row.beta
          roas := row.alpha_revenue * powf s row.beta / s
          cac := if 0 < row.alpha_hqls * powf s row.beta
            then s / (row.alpha_hqls * powf s row.beta) else 0 } := by
  unfold _predict
  by_cases hs : s ≤ 0
  · rw [if_pos hs, if_pos hs]
  · rw [if_neg hs, if_neg hs]
    dsimp only
    rw [if_pos (not_le.mp hs)]

/-- C2 (amended): the internal allocation vector and residual conserve the
budget exactly: `Σ alloc + remaining = total_budget`, for any merged table,
weights and power curve.  (The reported table rounds each spend to 2
decimals, which is what breaks the 1e-6 version of the claim.) -/
theorem budget_conservation_exact (powf : ℚ → ℚ → ℚ) (w : Weights)
    (merged : List MergedRow) (B : ℚ) :
    (allocPhase powf w merged B).1.sum + (allocPhase powf w merged B).2 = B := by
  unfold allocPhase
  rw [redistribute_sum _ _ _ (greedyPhase_len powf w merged B)]
  exact greedyPhase_sum powf w merged B

/-- C2 counterexample: a feasible run (budget 100, two channels locked at
0.004, one open channel) whose reported table sums to 99.99 with zero
unallocated budget: off the total budget by 0.01 > 1e-6. -/
theorem budget_conservation_reported_ce :
    ((optimize_budget pow0 base3 csTwoLocked rr100 cat1 "t").toOption.map
      (fun o => (o.allocation.map (·.recommended_spend)).sum
        + o.summary.unallocated_budget)) = some (9999 / 100)
    ∧ ¬ |(9999 : ℚ) / 100 - 100| ≤ eps6 := by
  constructor
  · with_unfolding_all rfl
  · rw [abs_sub_comm, abs_of_nonneg (by norm_num : (0 : ℚ) ≤ 100 - 9999 / 100)]
    norm_num [eps6]

/-- C9 (amended): after resolution every channel satisfies
`min_spend_effective ≤ max_spend_effective` unconditionally, and
`0 ≤ min_spend_effective` provided no constraint row carries a negative
`min_spend` (a negative `min_spend` is passed through by the source's
`row["min_spend"] or 0.0`). -/
theorem bounds_invariant_nonneg (base : List BaselineRow) (cs : List ConstraintRow)
    (B : ℚ) (hmin : ∀ c ∈ cs, ∀ v, c.min_spend = some v → 0 ≤ v) :
    ∀ r ∈ _normalize_constraints base cs B,
      0 ≤ r.min_spend_effective ∧ r.min_spend_effective ≤ r.max_spend_effective := by
  intro r hr
  obtain ⟨b, hb, rfl⟩ := List.mem_map.mp hr
  refine ⟨?_, resolveChannel_min_le_max cs B b⟩
  show 0 ≤ (resolveChannel cs B b).min_spend_effective
  unfold resolveChannel
  dsimp only
  apply resolveBounds_nonneg
  intro v hv
  cases hfind : cs.find? (fun c => c.channel == b.channel) with
  | none => rw [hfind] at hv; cases hv
  | some c =>
    rw [hfind] at hv
    exact hmin c (List.mem_of_find?_eq_some hfind) v hv

/-- C9 counterexample: a constraint row with `min_spend = -5` resolves to
`min_spend_effective = -5 < 0`, refuting the unconditional invariant. -/
theorem bounds_invariant_ce :
    (_normalize_constraints base1 csNegativeMin 100).map
        (fun r => (r.min_spend_effective, r.max_spend_effective)) = [(-5, 100)]
    ∧ ¬ (0 : ℚ) ≤ -5 := by
  constructor
  · with_unfolding_all rfl
  · norm_num

/-- C9 witness: on a constraint table with no negative minimums the invariant
holds. -/
theorem bounds_invariant_witness :
    (∀ c ∈ csOpen1, ∀ v, c.min_spend = some v → 0 ≤ v)
    ∧ ∀ r ∈ _normalize_constraints base1 csOpen1 100,
        0 ≤ r.min_spend_effective ∧ r.min_spend_effective ≤ r.max_spend_effective := by
  have hmin : ∀ c ∈ csOpen1, ∀ v, c.min_spend = some v → 0 ≤ v := by
    intro c hc v hv
    have hc1 : c = openRow "a" := by simpa [csOpen1] using hc
    subst hc1
    exact Option.noConfusion hv
  exact ⟨hmin, bounds_invariant_nonneg base1 csOpen1 100 hmin⟩

/-- C1 (amended): a baseline channel with no matching constraint row is
treated as disabled: the left merge leaves NaN in `enabled`, `as_bool(NaN)`
is false, and the resolved bounds are `min = max = 0`, not
`(0, total_budget)`. -/
theorem missing_constraint_row_default (base : List BaselineRow)
    (cs : List ConstraintRow) (B : ℚ) (b : BaselineRow) (hb : b ∈ base)
    (hnone : cs.find? (fun c => c.channel == b.channel) = none) :
    ∃ r ∈ _normalize_constraints base cs B, r.channel = b.channel ∧
      r.enabled = false ∧ r.min_spend_effective = 0 ∧ r.max_spend_effective = 0 := by
  have hrc : resolveChannel cs B b =
      { client_id := b.client_id, channel := b.channel, beta := b.beta,
        alpha_pipeline := b.alpha_pipeline, alpha_revenue := b.alpha_revenue,
        alpha_hqls := b.alpha_hqls, alpha_leads := b.alpha_leads,
        enabled := false, min_spend_effective := 0, max_spend_effective := 0 } := by
    unfold resolveChannel
    rw [hnone]
    rfl
  exact ⟨resolveChannel cs B b, List.mem_map_of_mem _ hb,
    by rw [hrc], by rw [hrc], by rw [hrc], by rw [hrc]⟩

/-- C1 counterexample: with an empty constraint table and budget 100, the
resolved row is disabled with bounds `(0, 0)`, not enabled with bounds
`(0, 100)` as the claim states. -/
theorem missing_constraint_row_ce :
    (_normalize_constraints base1 [] 100).map
        (fun r => (r.enabled, r.min_spend_effective, r.max_spend_effective))
      = [(false, 0, 0)]
    ∧ (false, (0 : ℚ), (0 : ℚ)) ≠ (true, (0 : ℚ), (100 : ℚ)) := by
  constructor
  · with_unfolding_all rfl
  · simp

/-- C1 witness: the amended behaviour at the concrete missing-row input. -/
theorem missing_constraint_row_witness :
    (bRow "a" ∈ base1
      ∧ ([] : List ConstraintRow).find? (fun c => c.channel == (bRow "a").channel) = none)
    ∧ ∃ r ∈ _normalize_constraints base1 [] 100, r.channel = (bRow "a").channel ∧
        r.enabled = false ∧ r.min_spend_effective = 0 ∧ r.max_spend_effective = 0 :=
  ⟨⟨by simp [base1], rfl⟩,
    missing_constraint_row_default base1 [] 100 (bRow "a") (by simp [base1]) rfl⟩

/-- An enabled constraint row with a non-negative `locked_spend` resolves to
pinned bounds `min = max = L`. -/
theorem resolveChannel_locked (cs : List ConstraintRow) (B : ℚ) (b : BaselineRow)
    (c : ConstraintRow) (L : ℚ)
    (hc : cs.find? (fun c0 => c0.channel == b.channel) = some c)
    (hen : as_bool c.enabled = true)
    (hlk : c.locked_spend = some L) (hL : 0 ≤ L) :
    (resolveChannel cs B b).min_spend_effective = L ∧
    (resolveChannel cs B b).max_spend_effective = L ∧
    (resolveChannel cs B b).channel = b.channel := by
  unfold resolveChannel
  rw [hc]
  dsimp only
  simp only [Option.some_bind]
  rw [hlk, hen]
  unfold resolveBounds
  rw [if_neg (by simp : ¬ (true = false))]
  dsimp only
  rw [if_pos hL]
  exact ⟨rfl, rfl, trivial⟩

/-- C3 (amended): for every resolved channel, the internal allocation (before
the 2-decimal presentation rounding) never falls below
`min_spend_effective`; the greedy loop keeps it at or below
`max_spend_effective`, and when the loop residual is within `1e-6` (so the
one-pass redistribution is skipped) the final internal allocation also stays
at or below `max_spend_effective`. -/
theorem bound_respect_internal (powf : ℚ → ℚ → ℚ) (w : Weights)
    (base : List BaselineRow) (cs : List ConstraintRow) (B : ℚ)
    (i : ℕ) (row : MergedRow)
    (hrow : (_normalize_constraints base cs B).get? i = some row) :
    row.min_spend_effective
      ≤ (allocPhase powf w (_normalize_constraints base cs B) B).1.getD i 0
    ∧ (greedyPhase powf w (_normalize_constraints base cs B) B).1.getD i 0
      ≤ row.max_spend_effective
    ∧ ((greedyPhase powf w (_normalize_constraints base cs B) B).2 ≤ eps6 →
        (allocPhase powf w (_normalize_constraints base cs B) B).1.getD i 0
          ≤ row.max_spend_effective) := by
  refine ⟨allocPhase_lower powf w base cs B i row hrow,
    (greedyPhase_bounds powf w base cs B i row hrow).2, ?_⟩
  intro hres
  have heq : allocPhase powf w (_normalize_constraints base cs B) B
      = greedyPhase powf w (_normalize_constraints base cs B) B := by
    unfold allocPhase redistribute
    rw [if_neg (not_lt.mpr hres)]
  rw [heq]
  exact (greedyPhase_bounds powf w base cs B i row hrow).2

/-- C3 counterexample: with channel `a` locked at `0.004` (a feasible run),
the reported `recommended_spend` for `a` is the rounded value `0.0`, strictly
below its resolved `min_spend_effective = 0.004`. -/
theorem bound_respect_reported_ce :
    ((optimize_budget pow0 base2 csOneLocked rr100 cat1 "t").toOption.map
      (fun o => o.allocation.map (fun r => (r.channel, r.recommended_spend))))
      = some [("b", 100), ("a", 0)]
    ∧ (_normalize_constraints base2 csOneLocked 100).map
        (fun r => (r.channel, r.min_spend_effective)) = [("a", 1 / 250), ("b", 0)]
    ∧ ¬ ((1 : ℚ) / 250 ≤ 0) :=
  ⟨by with_unfolding_all rfl, by with_unfolding_all rfl, by norm_num⟩

/-- C3 witness: the internal bound-respect facts at a concrete one-channel
run. -/
theorem bound_respect_internal_witness :
    ((_normalize_constraints base1 csOpen1 100).get? 0
      = some (resolveChannel csOpen1 100 (bRow "a")))
    ∧ ((resolveChannel csOpen1 100 (bRow "a")).min_spend_effective
        ≤ (allocPhase pow0 wPipeline (_normalize_constraints base1 csOpen1 100) 100).1.getD 0 0
      ∧ (greedyPhase pow0 wPipeline (_normalize_constraints base1 csOpen1 100) 100).1.getD 0 0
        ≤ (resolveChannel csOpen1 100 (bRow "a")).max_spend_effective
      ∧ ((greedyPhase pow0 wPipeline (_normalize_constraints base1 csOpen1 100) 100).2 ≤ eps6 →
          (allocPhase pow0 wPipeline (_normalize_constraints base1 csOpen1 100) 100).1.getD 0 0
            ≤ (resolveChannel csOpen1 100 (bRow "a")).max_spend_effective)) :=
  ⟨rfl, bound_respect_internal pow0 wPipeline base1 csOpen1 100 0
    (resolveChannel csOpen1 100 (bRow "a")) rfl⟩

/-- C8 (amended): every channel whose constraint row is *enabled* and carries
`locked_spend = L ≥ 0` is allocated exactly `L` internally, and its reported
`recommended_spend` is `round(L, 2)`, for any objective and weights. -/
theorem locked_channel_spend (powf : ℚ → ℚ → ℚ) (base : List BaselineRow)
    (cs : List ConstraintRow) (rr : RunRequest) (cat : Catalog) (now : String)
    (i : ℕ) (b : BaselineRow) (c : ConstraintRow) (L : ℚ) (w : Weights)
    (hb : base.get? i = some b)
    (hc : cs.find? (fun c0 => c0.channel == b.channel) = some c)
    (hen : as_bool c.enabled = true)
    (hlk : c.locked_spend = some L)
    (hL : 0 ≤ L)
    (hw : _build_weights (objective_of rr) cat (rr.objective_overrides.getD [])
      = .ok w)
    (hfmin : ¬ eps6 < minTotalOf base cs (resolve_total_budget rr base)
      - resolve_total_budget rr base)
    (hfmax : ¬ maxTotalOf base cs (resolve_total_budget rr base) + eps6
      < resolve_total_budget rr base) :
    ∃ out, optimize_budget powf base cs rr cat now = .ok out ∧
      ∃ arow ∈ out.allocation, arow.channel = b.channel ∧
        arow.recommended_spend = roundTo 2 L := by
  unfold minTotalOf at hfmin
  unfold maxTotalOf at hfmax
  obtain ⟨hminL, hmaxL, hchan⟩ :=
    resolveChannel_locked cs (resolve_total_budget rr base) b c L hc hen hlk hL
  have hmerged : (_normalize_constraints base cs (resolve_total_budget rr base)).get? i
      = some (resolveChannel cs (resolve_total_budget rr base) b) := by
    unfold _normalize_constraints
    rw [List.get?_map, hb]
    rfl
  have hval : (allocPhase powf w
        (_normalize_constraints base cs (resolve_total_budget rr base))
        (resolve_total_budget rr base)).1.getD i 0 = L := by
    rw [allocPhase_pinned powf w base cs (resolve_total_budget rr base) i
      (resolveChannel cs (resolve_total_budget rr base) b) hmerged
      (hminL.trans hmaxL.symm)]
    exact hminL
  have hilen : i < (allocPhase powf w
      (_normalize_constraints base cs (resolve_total_budget rr base))
      (resolve_total_budget rr base)).1.length := by
    rw [allocPhase_len]
    exact index_lt_of_get?_eq_some _ i _ hmerged
  have hz : (List.zipWith
        (buildRow powf (resolve_total_budget rr base))
        (_normalize_constraints base cs (resolve_total_budget rr base))
        (allocPhase powf w
          (_normalize_constraints base cs (resolve_total_budget rr base))
          (resolve_total_budget rr base)).1).get? i
      = some (buildRow powf (resolve_total_budget rr base)
          (resolveChannel cs (resolve_total_budget rr base) b) L) := by
    rw [List.get?_zipWith', hmerged, get?_of_lt_length _ i hilen, hval]
    rfl
  unfold optimize_budget
  dsimp only
  rw [hw]
  dsimp only
  rw [if_neg hfmin, if_neg hfmax]
  refine ⟨_, rfl, ?_⟩
  refine ⟨buildRow powf (resolve_total_budget rr base)
    (resolveChannel cs (resolve_total_budget rr base) b) L,
    (mem_sortDesc _ _).mpr (List.get?_mem hz), ?_, rfl⟩
  exact hchan

/-- C8 counterexample: channel `a` is disabled but carries
`locked_spend = 500 ≥ 0`; the disabled check precedes the locked check, so
`a` receives 0, not 500. -/
theorem locked_channel_ce :
    ((optimize_budget pow0 base2 csDisabledLocked rr100 cat1 "t").toOption.map
      (fun o => o.allocation.map (fun r => (r.channel, r.recommended_spend))))
      = some [("b", 100), ("a", 0)]
    ∧ (csDisabledLocked.find? (fun c0 => c0.channel == "a")).map (·.locked_spend)
        = some (some 500)
    ∧ (0 : ℚ) ≠ 500 :=
  ⟨by with_unfolding_all rfl, by with_unfolding_all rfl, by norm_num⟩

/-- C8 witness: an enabled channel locked at 30 in a feasible budget-100 run
receives exactly `round(30, 2)`. -/
theorem locked_channel_witness :
    (base2.get? 0 = some (bRow "a")
      ∧ csLocked30.find? (fun c0 => c0.channel == (bRow "a").channel)
          = some (lockRow "a" 30)
      ∧ as_bool (lockRow "a" 30).enabled = true
      ∧ (lockRow "a" 30).locked_spend = some 30
      ∧ (0 : ℚ) ≤ 30
      ∧ _build_weights (objective_of rr100) cat1 (rr100.objective_overrides.getD [])
          = .ok wPipeline
      ∧ ¬ eps6 < minTotalOf base2 csLocked30 (resolve_total_budget rr100 base2)
          - resolve_total_budget rr100 base2
      ∧ ¬ maxTotalOf base2 csLocked30 (resolve_total_budget rr100 base2) + eps6
          < resolve_total_budget rr100 base2)
    ∧ ∃ out, optimize_budget pow0 base2 csLocked30 rr100 cat1 "t" = .ok out ∧
        ∃ arow ∈ out.allocation, arow.channel = (bRow "a").channel ∧
          arow.recommended_spend = roundTo 2 30 := by
  have hc : csLocked30.find? (fun c0 => c0.channel == (bRow "a").channel)
      = some (lockRow "a" 30) := by with_unfolding_all rfl
  have hw : _build_weights (objective_of rr100) cat1 (rr100.objective_overrides.getD [])
      = .ok wPipeline := by with_unfolding_all rfl
  have eB : resolve_total_budget rr100 base2 = 100 := by with_unfolding_all rfl
  have emin : minTotalOf base2 csLocked30 (resolve_total_budget rr100 base2) = 30 := by
    with_unfolding_all rfl
  have emax : maxTotalOf base2 csLocked30 (resolve_total_budget rr100 base2) = 130 := by
    with_unfolding_all rfl
  have h1 : ¬ eps6 < minTotalOf base2 csLocked30 (resolve_total_budget rr100 base2)
      - resolve_total_budget rr100 base2 := by
    rw [emin, eB]
    norm_num [eps6]
  have h2 : ¬ maxTotalOf base2 csLocked30 (resolve_total_budget rr100 base2) + eps6
      < resolve_total_budget rr100 base2 := by
    rw [emax, eB]
    norm_num [eps6]
  exact ⟨⟨rfl, hc, rfl, rfl, by norm_num, hw, h1, h2⟩,
    locked_channel_spend pow0 base2 csLocked30 rr100 cat1 "t" 0 (bRow "a")
      (lockRow "a" 30) 30 wPipeline rfl hc rfl rfl (by norm_num) hw h1 h2⟩

/-- C4 (amended): two calls of `optimize_budget` with identical baseline,
constraints, run request and catalog produce identical allocation tables and
summaries identical in every field except `generated_at`, which records the
wall-clock reading of each call. -/
theorem determinism_up_to_timestamp (powf : ℚ → ℚ → ℚ) (base : List BaselineRow)
    (cs : List ConstraintRow) (rr : RunRequest) (cat : Catalog) (t1 t2 : String) :
    (optimize_budget powf base cs rr cat t1).map
        (fun o => (o.allocation, eraseTime o.summary))
      = (optimize_budget powf base cs rr cat t2).map
        (fun o => (o.allocation, eraseTime o.summary)) := by
  unfold optimize_budget
  dsimp only
  cases hbw : _build_weights (objective_of rr) cat (rr.objective_overrides.getD []) with
  | error e => rfl
  | ok w =>
    dsimp only
    by_cases h1 : eps6 < (List.map (fun x => x.min_spend_effective)
        (_normalize_constraints base cs (resolve_total_budget rr base))).sum
        - resolve_total_budget rr base
    · rw [if_pos h1, if_pos h1]
    · rw [if_neg h1, if_neg h1]
      by_cases h2 : (List.map (fun x => x.max_spend_effective)
          (_normalize_constraints base cs (resolve_total_budget rr base))).sum
          + eps6 < resolve_total_budget rr base
      · rw [if_pos h2, if_pos h2]
      · rw [if_neg h2, if_neg h2]
        rfl

/-- C4 counterexample: the same inputs on two calls whose wall-clock readings
differ yield summaries that are not bit-identical: `generated_at` differs. -/
theorem determinism_timestamp_ce :
    (optimize_budget pow0 base1 csOpen1 rr100 cat1 "2024-01-01T00:00:00+00:00").toOption.map
        (fun o => o.summary.generated_at) = some "2024-01-01T00:00:00+00:00"
    ∧ (optimize_budget pow0 base1 csOpen1 rr100 cat1 "2024-01-02T00:00:00+00:00").toOption.map
        (fun o => o.summary.generated_at) = some "2024-01-02T00:00:00+00:00"
    ∧ ("2024-01-01T00:00:00+00:00" : String) ≠ "2024-01-02T00:00:00+00:00" :=
  ⟨by with_unfolding_all rfl, by with_unfolding_all rfl, by decide⟩

/-- C5: once the objective resolves, `optimize_budget` fails with the
Infeasible-Constraints error carrying the offending aggregate bound and the
budget whenever `Σ min > B + 1e-6` (checked first) or `Σ max < B − 1e-6`;
otherwise it returns an `ok` result.  No `ok` value escapes in the error
cases. -/
theorem infeasible_constraints_check (powf : ℚ → ℚ → ℚ) (base : List BaselineRow)
    (cs : List ConstraintRow) (rr : RunRequest) (cat : Catalog) (now : String)
    (w : Weights)
    (hw : _build_weights (objective_of rr) cat (rr.objective_overrides.getD [])
      = .ok w) :
    (resolve_total_budget rr base + eps6
        < minTotalOf base cs (resolve_total_budget rr base) →
      optimize_budget powf base cs rr cat now
        = .error (.infeasibleMin (minTotalOf base cs (resolve_total_budget rr base))
            (resolve_total_budget rr base)))
    ∧ (minTotalOf base cs (resolve_total_budget rr base)
          ≤ resolve_total_budget rr base + eps6 →
        maxTotalOf base cs (resolve_total_budget rr base)
          < resolve_total_budget rr base - eps6 →
      optimize_budget powf base cs rr cat now
        = .error (.infeasibleMax (maxTotalOf base cs (resolve_total_budget rr base))
            (resolve_total_budget rr base)))
    ∧ (minTotalOf base cs (resolve_total_budget rr base)
          ≤ resolve_total_budget rr base + eps6 →
        resolve_total_budget rr base - eps6
          ≤ maxTotalOf base cs (resolve_total_budget rr base) →
      ∃ out, optimize_budget powf base cs rr cat now = .ok out) := by
  unfold minTotalOf maxTotalOf
  unfold optimize_budget
  dsimp only
  rw [hw]
  dsimp only
  by_cases h1 : eps6 < (List.map (fun x => x.min_spend_effective)
      (_normalize_constraints base cs (resolve_total_budget rr base))).sum
      - resolve_total_budget rr base
  · rw [if_pos h1]
    exact ⟨fun _ => rfl,
      fun hmin _ => absurd h1 (not_lt.mpr (by linarith)),
      fun hmin _ => absurd h1 (not_lt.mpr (by linarith))⟩
  · rw [if_neg h1]
    by_cases h2 : (List.map (fun x => x.max_spend_effective)
        (_normalize_constraints base cs (resolve_total_budget rr base))).sum
        + eps6 < resolve_total_budget rr base
    · rw [if_pos h2]
      refine ⟨fun h => absurd h (not_lt.mpr ?_), fun _ _ => rfl,
        fun _ hge => absurd h2 (not_lt.mpr (by linarith))⟩
      have := not_lt.mp h1
      linarith
    · rw [if_neg h2]
      refine ⟨fun h => absurd h (not_lt.mpr ?_),
        fun _ hmax => absurd hmax (not_lt.mpr ?_), fun _ _ => ⟨_, rfl⟩⟩
      · have := not_lt.mp h1
        linarith
      · have := not_lt.mp h2
        linarith

/-- C5 witness: the spec's own example — two channels with `min_spend = 6000`
each against a budget of 10000 fail with the Infeasible-Constraints error
carrying `min sum 12000` and `budget 10000`. -/
theorem infeasible_constraints_witness :
    (_build_weights (objective_of rr10000) cat1 (rr10000.objective_overrides.getD [])
        = .ok wPipeline)
    ∧ resolve_total_budget rr10000 base2 + eps6
        < minTotalOf base2 csMin6000 (resolve_total_budget rr10000 base2)
    ∧ optimize_budget pow0 base2 csMin6000 rr10000 cat1 "t"
        = .error (.infeasibleMin
            (minTotalOf base2 csMin6000 (resolve_total_budget rr10000 base2))
            (resolve_total_budget rr10000 base2)) := by
  have hw : _build_weights (objective_of rr10000) cat1 (rr10000.objective_overrides.getD [])
      = .ok wPipeline := by with_unfolding_all rfl
  have eB : resolve_total_budget rr10000 base2 = 10000 := by with_unfolding_all rfl
  have emin : minTotalOf base2 csMin6000 (resolve_total_budget rr10000 base2) = 12000 := by
    with_unfolding_all rfl
  have hlt : resolve_total_budget rr10000 base2 + eps6
      < minTotalOf base2 csMin6000 (resolve_total_budget rr10000 base2) := by
    rw [emin, eB]
    norm_num [eps6]
  exact ⟨hw, hlt,
    (infeasible_constraints_check pow0 base2 csMin6000 rr10000 cat1 "t" wPipeline hw).1 hlt⟩

/-- Appending one override pair is the same as post-composing `setWeight` on
the successful result. -/
theorem build_weights_append (name : String) (cat : Catalog)
    (ov : List (String × ℚ)) (k : String) (v : ℚ) :
    _build_weights name cat (ov ++ [(k, v)])
      = (_build_weights name cat ov).map (fun w0 => setWeight w0 k v) := by
  unfold _build_weights
  dsimp only
  by_cases h : (cat.objectives.lookup name).getD ([] : List (String × ℚ)) = []
  · rw [if_pos h, if_pos h]
    rfl
  · rw [if_neg h, if_neg h, List.foldl_append]
    rfl

/-- An override key outside the six recognized names never changes the
weight record. -/
theorem setWeight_unrecognized (w0 : Weights) (k : String) (v : ℚ)
    (hk : k ∉ weightKeys) : setWeight w0 k v = w0 := by
  simp only [weightKeys, List.mem_cons, List.not_mem_nil, or_false, not_or] at hk
  obtain ⟨h1, h2, h3, h4, h5, h6⟩ := hk
  unfold setWeight
  rw [if_neg h1, if_neg h2, if_neg h3, if_neg h4, if_neg h5, if_neg h6]

/-- C7 (amended): weight resolution fails with the Unknown-Objective error
exactly when the catalog entry for the name is the *empty* mapping — which
covers both an absent name and a present name with no weights (`if not
defaults` in the source); a successful resolution overlays each appended
override through `setWeight`, and overrides with unrecognized keys are
ignored without error. -/
theorem weight_resolution (name : String) (cat : Catalog) (ov : List (String × ℚ))
    (k : String) (v : ℚ) :
    ((_build_weights name cat ov = .error (.unknownObjective name))
        ↔ (cat.objectives.lookup name).getD [] = [])
    ∧ (_build_weights name cat (ov ++ [(k, v)])
        = (_build_weights name cat ov).map (fun w0 => setWeight w0 k v))
    ∧ (k ∉ weightKeys →
        _build_weights name cat (ov ++ [(k, v)]) = _build_weights name cat ov) := by
  refine ⟨⟨?_, ?_⟩, build_weights_append name cat ov k v, ?_⟩
  · intro h
    by_contra hne
    unfold _build_weights at h
    rw [if_neg hne] at h
    cases h
  · intro h
    unfold _build_weights
    rw [if_pos h]
  · intro hk
    rw [build_weights_append name cat ov k v]
    cases hb : _build_weights name cat ov with
    | error e => rfl
    | ok w0 =>
      show Except.ok (setWeight w0 k v) = Except.ok w0
      rw [setWeight_unrecognized w0 k v hk]

/-- C7 counterexample: the catalog entry `growth` is present but empty, and
weight resolution still fails with Unknown-Objective — refuting "fails if and
only if the name is absent". -/
theorem weight_resolution_ce :
    catEmptyEntry.objectives.lookup "growth" = some []
    ∧ _build_weights "growth" catEmptyEntry []
        = .error (.unknownObjective "growth") :=
  ⟨by with_unfolding_all rfl, by with_unfolding_all rfl⟩

/-- C7 witness: an unrecognized override key is ignored on a concrete
catalog. -/
theorem weight_resolution_witness :
    ("growthx" ∉ weightKeys)
    ∧ _build_weights "pipeline" cat1 ([] ++ [("growthx", 7)])
        = _build_weights "pipeline" cat1 [] := by
  have hk : ("growthx" : String) ∉ weightKeys := by decide
  exact ⟨hk, (weight_resolution "pipeline" cat1 [] "growthx" 7).2.2 hk⟩

/-- C10: when the run request's `total_budget` is absent, `None`, or `0`, the
run does not fail on that account: the budget silently falls back to the sum
of the baseline table's `baseline_spend` column, and the whole run behaves
exactly as if that sum had been passed. -/
theorem budget_default_fallback (powf : ℚ → ℚ → ℚ) (base : List BaselineRow)
    (cs : List ConstraintRow) (cat : Catalog) (now : String) (rr : RunRequest)
    (h : rr.total_budget = none ∨ rr.total_budget = some 0) :
    resolve_total_budget rr base = (base.map (·.baseline_spend)).sum
    ∧ optimize_budget powf base cs rr cat now
      = optimize_budget powf base cs
          { rr with total_budget := some ((base.map (·.baseline_spend)).sum) }
          cat now := by
  have hres : resolve_total_budget rr base = (base.map (·.baseline_spend)).sum := by
    unfold resolve_total_budget pyOrQ
    rcases h with h | h
    · rw [h]
    · rw [h]
      dsimp only
      rw [if_pos rfl]
  have hres' : resolve_total_budget
      { rr with total_budget := some ((base.map (·.baseline_spend)).sum) } base
      = (base.map (·.baseline_spend)).sum := by
    unfold resolve_total_budget pyOrQ
    dsimp only
    by_cases hz : (base.map (·.baseline_spend)).sum = 0
    · rw [if_pos hz, hz]
    · rw [if_neg hz]
  refine ⟨hres, ?_⟩
  unfold optimize_budget
  dsimp only
  rw [hres, hres']
  rfl

/-- C10 witness: a request with no `total_budget` key behaves exactly like
one with the baseline-spend sum as budget. -/
theorem budget_default_fallback_witness :
    (rrNoBudget.total_budget = none ∨ rrNoBudget.total_budget = some 0)
    ∧ (resolve_total_budget rrNoBudget base1 = (base1.map (·.baseline_spend)).sum
      ∧ optimize_budget pow0 base1 csOpen1 rrNoBudget cat1 "t"
        = optimize_budget pow0 base1 csOpen1
            { rrNoBudget with total_budget := some ((base1.map (·.baseline_spend)).sum) }
            cat1 "t") :=
  ⟨Or.inl rfl,
    budget_default_fallback pow0 base1 csOpen1 cat1 "t" rrNoBudget (Or.inl rfl)⟩
